import Mathlib

set_option maxRecDepth 100000

/-!
Shallow embedding of the childsize repository (src/lib.rs, src/main.rs):
per-directory size statistics, grouping-key resolution, glob filtering,
aggregation and sorted reporting.
-/

/-- Modulus of Rust u64 arithmetic. -/
def U64 : Nat := 18446744073709551616

/-- Value of bytesize's ByteSize::pib(1) in bytes, the sentinel stored in the
min field of a fresh entry. -/
def pib1 : Nat := 1125899906842624

/-- Rust struct ChildSizeEntry (src/lib.rs lines 43-55): running statistics for
the files folded into one group.  The ByteSize fields are u64 byte counts,
modelled as Nat values below U64. -/
structure ChildSizeEntry where
  count : Nat
  total : Nat
  average : Nat
  max : Nat
  min : Nat
deriving DecidableEq

/-- Default for ChildSizeEntry (src/lib.rs lines 63-73): all fields zero except
min, which starts at the one-pebibyte sentinel. -/
def ChildSizeEntry.default : ChildSizeEntry :=
  { count := 0, total := 0, average := 0, max := 0, min := pib1 }

/-- AddAssign of a ByteSize onto a ChildSizeEntry (src/lib.rs lines 85-96):
increment count, add the size to total (u64 addition wraps modulo U64), and
replace max / min when the new size is strictly beyond them. -/
def addAssign (e : ChildSizeEntry) (size : Nat) : ChildSizeEntry :=
  { e with
    count := (e.count + 1) % U64
    total := (e.total + size) % U64
    max := if e.max < size then size else e.max
    min := if size < e.min then size else e.min }

/-- Fold a whole list of sizes into a fresh ChildSizeEntry. -/
def foldSizes (sizes : List Nat) : ChildSizeEntry :=
  sizes.foldl addAssign ChildSizeEntry.default

/-- Fuel-bounded floor of the base-two logarithm; log2f 200 n is the exact
floor of log2 n for every n below 2 ^ 200. -/
def log2f : Nat → Nat → Nat
  | 0, _ => 0
  | fuel + 1, n => if 2 ≤ n then log2f fuel (n / 2) + 1 else 0

/-- Round half to even: the nearest integer to the rational x / y (y positive),
with ties resolved toward the even integer, as IEEE-754 rounding does at the
scale of one unit in the last place. -/
def rhe (x y : Nat) : Nat :=
  let q := x / y
  let r := x % y
  if 2 * r > y ∨ (2 * r = y ∧ q % 2 = 1) then q + 1 else q

/-- Nearest IEEE-754 double to a natural number, returned as the exact natural
value that double denotes: models Rust's `n as f64` for n < 2 ^ 64 by rounding
to 53 significant bits, ties to even. -/
def natToF64 (n : Nat) : Nat :=
  if n < 2 ^ 53 then n
  else
    let e := log2f 200 n - 52
    let q := n / 2 ^ e
    let r := n % 2 ^ e
    if 2 * r > 2 ^ e ∨ (2 * r = 2 ^ e ∧ q % 2 = 1) then (q + 1) * 2 ^ e
    else q * 2 ^ e

/-- Integer part of the correctly rounded IEEE-754 double quotient a / b, for
naturals a, b that are exact double values with b positive: the exact rational
quotient is rounded to the nearest double (ties to even, spacing taken from the
binade of the quotient) and then truncated toward zero, modelling Rust's f64
division followed by an `as u64` truncation. -/
def f64DivTrunc (a b : Nat) : Nat :=
  if a = 0 then 0
  else
    let K := log2f 200 (a * 2 ^ 100 / b)
    if K ≤ 152 then rhe (a * 2 ^ (152 - K)) b / 2 ^ (152 - K)
    else rhe a (b * 2 ^ (K - 152)) * 2 ^ (K - 152)

/-- Value of `(total as f64 / count as f64) as u64` (src/lib.rs line 59).  With
count = 0 the f64 division yields NaN (total = 0, cast to 0) or infinity
(saturating cast to u64::MAX); otherwise both operands are rounded to doubles,
divided with correct rounding, truncated and saturated at u64::MAX. -/
def f64AvgCast (total count : Nat) : Nat :=
  if count = 0 then (if total = 0 then 0 else U64 - 1)
  else min (f64DivTrunc (natToF64 total) (natToF64 count)) (U64 - 1)

/-- ChildSizeEntry::update_average (src/lib.rs lines 58-60): recompute the
average field from total and count, leaving the other fields alone. -/
def update_average (e : ChildSizeEntry) : ChildSizeEntry :=
  { e with average := f64AvgCast e.total e.count }

/-- Split a character list at path separators, accumulating the current piece
in reverse. -/
def splitSlash : List Char → List Char → List String
  | [], acc => [String.mk acc.reverse]
  | c :: rest, acc =>
    if c = '/' then String.mk acc.reverse :: splitSlash rest []
    else splitSlash rest (c :: acc)

/-- Whether a path string is absolute (starts with the separator). -/
def isAbs (s : String) : Bool :=
  match s.data with
  | '/' :: _ => true
  | _ => false

/-- Normal components of a path string, as Rust's Path::components yields
them: empty pieces (repeated or trailing separators) vanish, and a sole "."
component survives only at the head of a relative path. -/
def normalComps (s : String) : List String :=
  let raw := (splitSlash s.data []).filter (fun c => c ≠ "")
  if isAbs s then raw.filter (fun c => c ≠ ".")
  else
    match raw with
    | "." :: rest => "." :: rest.filter (fun c => c ≠ ".")
    | other => other.filter (fun c => c ≠ ".")

/-- Full component list of a path string: a leading "/" marker stands for
Rust's RootDir component (a normal component can never equal "/" because a
component cannot contain the separator). -/
def pathComps (s : String) : List String :=
  (if isAbs s then ["/"] else []) ++ normalComps s

/-- Path::strip_prefix as called at src/lib.rs line 212: component-wise
removal of the base's components, yielding the remaining components, or none
when the base's components are not a leading segment of the path's. -/
def stripBaseOf (p base : List String) : Option (List String) :=
  if base.isPrefixOf p then some (p.drop base.length) else none

/-- Path::parent on a component list (src/lib.rs line 220): none for the
empty path and for the bare root, otherwise the components with the last one
removed. -/
def parentComps : List String → Option (List String)
  | [] => none
  | ["/"] => none
  | cs => some cs.dropLast

/-- Components joined with single separators. -/
def joinComps : List String → String
  | [] => ""
  | [c] => c
  | c :: cs => c ++ "/" ++ joinComps cs

/-- Canonical string form of a component list (a leading "/" marker rendered
as the root). -/
def renderComps : List String → String
  | "/" :: cs => "/" ++ joinComps cs
  | cs => joinComps cs

/-- Whether a string ends with the separator. -/
def endsSlash (s : String) : Bool :=
  match s.data.getLast? with
  | some '/' => true
  | _ => false

/-- String produced by Path::new(base).join(argument) followed by
to_string_lossy (src/lib.rs lines 223-229): an absolute argument replaces the
base entirely; otherwise the argument's components are appended after a
separator, none being doubled when the base already ends in one and none
added to an empty base. -/
def pushRender (base : String) (cs : List String) : String :=
  match cs with
  | "/" :: _ => renderComps cs
  | _ =>
    if base = "" then renderComps cs
    else if endsSlash base then base ++ renderComps cs
    else base ++ "/" ++ renderComps cs

/-- Processor::key (src/lib.rs lines 211-231): grouping key for a file path
under a root, or none when the root's components are not a leading segment of
the path's. -/
def Processor.key (path base : String) : Option String :=
  match stripBaseOf (pathComps path) (pathComps base) with
  | none => none
  | some r =>
    match parentComps r with
    | none => some base
    | some p => if p = [] then some base else some (pushRender base p)

/-- The caller's fallback at src/lib.rs line 200: unwrap_or_default turns a
missing key into the empty string. -/
def keyOrDefault (path base : String) : String :=
  (Processor.key path base).getD ""

/-- Syntax scan of one glob pattern, modelling the validity check of
globset::Glob::new (invoked through unwrap at src/lib.rs line 165): a
dangling escape, an unclosed character class, an unclosed or nested alternate
group and a stray closing brace are rejected.  States: 0 normal, 1 just after
an opening bracket, 2 after its negation mark, 3 inside a class body; the
last argument counts open alternate groups. -/
def scanGlobAux : List Char → Nat → Nat → Bool
  | [], st, depth => st == 0 && depth == 0
  | '\\' :: [], 0, _ => false
  | '\\' :: _ :: rest, 0, depth => scanGlobAux rest 0 depth
  | '[' :: rest, 0, depth => scanGlobAux rest 1 depth
  | '{' :: rest, 0, depth => if depth == 0 then scanGlobAux rest 0 1 else false
  | '}' :: rest, 0, depth => if depth == 1 then scanGlobAux rest 0 0 else false
  | _ :: rest, 0, depth => scanGlobAux rest 0 depth
  | '!' :: rest, 1, depth => scanGlobAux rest 2 depth
  | ']' :: rest, 1, depth => scanGlobAux rest 3 depth
  | '\\' :: [], 1, _ => false
  | '\\' :: _ :: rest, 1, depth => scanGlobAux rest 3 depth
  | _ :: rest, 1, depth => scanGlobAux rest 3 depth
  | ']' :: rest, 2, depth => scanGlobAux rest 3 depth
  | '\\' :: [], 2, _ => false
  | '\\' :: _ :: rest, 2, depth => scanGlobAux rest 3 depth
  | _ :: rest, 2, depth => scanGlobAux rest 3 depth
  | ']' :: rest, 3, depth => scanGlobAux rest 0 depth
  | '\\' :: [], 3, _ => false
  | '\\' :: _ :: rest, 3, depth => scanGlobAux rest 3 depth
  | _ :: rest, 3, depth => scanGlobAux rest 3 depth
  | _ :: _, _, _ => false

/-- Whether globset::Glob::new accepts the pattern string. -/
def globParseOk (pat : String) : Bool := scanGlobAux pat.data 0 0

/-- Membership of a character in a list of closed character ranges. -/
def inRanges (c : Char) : List (Char × Char) → Bool
  | [] => false
  | (a, b) :: rest => (a ≤ c && c ≤ b) || inRanges c rest

/-- Collect the ranges of a character class body up to the closing bracket. -/
def classRanges : List Char → List (Char × Char) → Option (List (Char × Char) × List Char)
  | [], _ => none
  | ']' :: rest, acc => some (acc, rest)
  | a :: '-' :: b :: rest, acc =>
    if b = ']' then some ((a, a) :: ('-', '-') :: acc, rest)
    else classRanges rest ((a, b) :: acc)
  | a :: rest, acc => classRanges rest ((a, a) :: acc)

/-- Parse a character class at match time: negation flag, member ranges, rest
of the pattern.  A bracket right after the opening (or after the negation
mark) is a literal member. -/
def parseClass (cs : List Char) : Option (Bool × List (Char × Char) × List Char) :=
  let p := match cs with
    | '!' :: rest => (true, rest)
    | other => (false, other)
  match p.2 with
  | ']' :: rest =>
    match classRanges rest [(']', ']')] with
    | none => none
    | some (rs, rest2) => some (p.1, rs, rest2)
  | other =>
    match classRanges other [] with
    | none => none
    | some (rs, rest2) => some (p.1, rs, rest2)

/-- Fuel-bounded glob matching: star, single-character wildcard, character
classes and escaped or literal characters. -/
def globMatchFuel : Nat → List Char → List Char → Bool
  | 0, _, _ => false
  | _ + 1, [], s => s.isEmpty
  | fuel + 1, '*' :: ps, s =>
    globMatchFuel fuel ps s ||
      (match s with
       | [] => false
       | _ :: s2 => globMatchFuel fuel ('*' :: ps) s2)
  | fuel + 1, '?' :: ps, s =>
    (match s with
     | [] => false
     | _ :: s2 => globMatchFuel fuel ps s2)
  | fuel + 1, '[' :: ps, s =>
    (match parseClass ps, s with
     | some (neg, rs, ps2), c :: s2 =>
       if (inRanges c rs) != neg then globMatchFuel fuel ps2 s2 else false
     | _, _ => false)
  | fuel + 1, '\\' :: p :: ps, s =>
    (match s with
     | c :: s2 => if c = p then globMatchFuel fuel ps s2 else false
     | [] => false)
  | fuel + 1, p :: ps, s =>
    (match s with
     | c :: s2 => if c = p then globMatchFuel fuel ps s2 else false
     | [] => false)

/-- One compiled glob matched against a file name. -/
def globMatch (pat name : String) : Bool :=
  globMatchFuel ((pat.length + 1) * (name.length + 1) + 1) pat.data name.data

/-- GlobSet::is_match of the globset crate: true when some glob of the set
matches the name; in particular an empty set matches no name at all. -/
def globSetIsMatch (pats : List String) (name : String) : Bool :=
  pats.any (fun p => globMatch p name)

/-- Rust struct Processor's mutable state (src/lib.rs lines 127-132): the
summary entry plus the key-to-entry mapping.  The HashMap is modelled as an
association list with unique keys; its concrete iteration order is not part
of the map's contract. -/
structure PState where
  summary : ChildSizeEntry
  entries : List (String × ChildSizeEntry)
deriving DecidableEq

/-- Processor::new (src/lib.rs lines 134-147): empty mapping, summary fields
zero with the min sentinel. -/
def Processor.init : PState :=
  { summary := ChildSizeEntry.default, entries := [] }

/-- Mapping update performed by entry(key).or_default() followed by the
AddAssign at src/lib.rs lines 203-205: fold into the existing entry for the
key, or into a fresh default entry inserted for it. -/
def updateAssoc : List (String × ChildSizeEntry) → String → Nat → List (String × ChildSizeEntry)
  | [], k, size => [(k, addAssign ChildSizeEntry.default size)]
  | (k2, e) :: rest, k, size =>
    if k2 = k then (k2, addAssign e size) :: rest
    else (k2, e) :: updateAssoc rest k size

/-- Aggregation step for one qualifying file of known size (the inner branch
of filefold, src/lib.rs lines 203-206): fold the size into the entry for the
key and into the summary. -/
def record (st : PState) (k : String) (size : Nat) : PState :=
  { summary := addAssign st.summary size
    entries := updateAssoc st.entries k size }

/-- One entry yielded by the walkdir traversal: its path, whether it is a
regular file, and the metadata size when metadata retrieval succeeds. -/
structure DirEntry where
  path : String
  isFile : Bool
  size : Option Nat

/-- DirEntry::file_name: final normal component of the path (the full path
when there is none). -/
def fileNameOf (p : String) : String :=
  match (normalComps p).getLast? with
  | some c => c
  | none => p

/-- Processor::filefold (src/lib.rs lines 198-209): a regular file whose name
matches the glob set is folded, under the key resolved from its path and the
base (empty string when the key is missing), into its entry and into the
summary; every other entry leaves the state unchanged. -/
def filefold (st : PState) (e : DirEntry) (base : String) (pats : List String) : PState :=
  if e.isFile && globSetIsMatch pats (fileNameOf e.path) then
    match e.size with
    | some n => record st (keyOrDefault e.path base) (n % U64)
    | none => st
  else st

/-- Processor::walktree (src/lib.rs lines 150-159): fold every entry the
walker yields for one root.  The walk itself is I/O; the list of yielded
entries is the model's input. -/
def walktree (st : PState) (base : String) (pats : List String) (es : List DirEntry) : PState :=
  es.foldl (fun s e => filefold s e base pats) st

/-- Processor::walktrees (src/lib.rs lines 162-173): compile every glob
pattern first - Glob::new(..).unwrap() aborts the run on the first invalid
pattern, modelled as the error value - then walk each root in order. -/
def walktrees (pats : List String) (roots : List (String × List DirEntry)) :
    Except String PState :=
  match pats.find? (fun p => !globParseOk p) with
  | some _ => Except.error "InvalidPattern"
  | none => Except.ok (roots.foldl (fun st r => walktree st r.1 pats r.2) Processor.init)

/-- Rust enum SortMode (src/lib.rs lines 29-40). -/
inductive SortMode where
  | Count
  | Total
  | Average
  | Max
  | Min
deriving DecidableEq

/-- Field selected by SortMode::ordering (src/lib.rs lines 115-125): the
returned comparator compares exactly this u64 field of the two entries. -/
def SortMode.field : SortMode → ChildSizeEntry → Nat
  | .Count, e => e.count
  | .Total, e => e.total
  | .Average, e => e.average
  | .Max, e => e.max
  | .Min, e => e.min

/-- The Vec sort of Processor::process (src/lib.rs line 182):
sort_unstable_by with SortMode::ordering arranges the pairs so the selected
field ascends; insertion sort realises that sort contract in the model. -/
def sortEntries (mode : SortMode) (l : List (String × ChildSizeEntry)) :
    List (String × ChildSizeEntry) :=
  List.insertionSort (fun a b => mode.field a.2 ≤ mode.field b.2) l

/-- Ordering of the rows produced by Processor::process (src/lib.rs lines
176-196) on an already finalized mapping: sort ascending on the selected
field, then reverse when the reverse flag is set.  The input list order
stands for the HashMap's unspecified iteration order. -/
def reportOrder (mode : SortMode) (rev : Bool) (l : List (String × ChildSizeEntry)) :
    List (String × ChildSizeEntry) :=
  let s := sortEntries mode l
  if rev then s.reverse else s

/-- Numeric values written by the Display instance of ChildSizeEntry
(src/lib.rs lines 75-83): count, total, average and max, in that order; the
min field does not appear in the format string. -/
def displayFields (e : ChildSizeEntry) : List Nat :=
  [e.count, e.total, e.average, e.max]

/-- Rows printed by Processor::process (src/lib.rs lines 176-196): every
entry's average is refreshed, the pairs are ordered by the sort mode and the
reverse flag, one row per key carries the displayed fields and the key, and
with the summary flag a final row carries the refreshed summary's displayed
fields under the fixed SUMMARY label. -/
def processRows (mode : SortMode) (rev showSummary : Bool) (st : PState) :
    List (List Nat × String) :=
  let fin := st.entries.map (fun p => (p.1, update_average p.2))
  (reportOrder mode rev fin).map (fun p => (displayFields p.2, p.1)) ++
    (if showSummary then [(displayFields (update_average st.summary), "SUMMARY")] else [])

/-- Sum of the count fields over a mapping. -/
def sumCounts (l : List (String × ChildSizeEntry)) : Nat :=
  (l.map (fun p => p.2.count)).sum

/-- Sum of the total fields over a mapping. -/
def sumTotals (l : List (String × ChildSizeEntry)) : Nat :=
  (l.map (fun p => p.2.total)).sum

/-- Entry stored for a key, or the default entry when the key is absent,
as entry(key).or_default() reads the mapping. -/
def lookupOrDefault : List (String × ChildSizeEntry) → String → ChildSizeEntry
  | [], _ => ChildSizeEntry.default
  | (k2, e) :: rest, k => if k2 = k then e else lookupOrDefault rest k

/-- Fold a list of (key, size) records into the initial Processor state. -/
def foldRecords (rs : List (String × Nat)) : PState :=
  rs.foldl (fun st r => record st r.1 r.2) Processor.init

/-- Folding with an empty glob set never changes the state: the empty GlobSet
matches no file name, so the filter rejects every entry. -/
theorem filefold_empty_pats (st : PState) (e : DirEntry) (base : String) :
    filefold st e base [] = st := by
  simp [filefold, globSetIsMatch]

/-- Walking one root with an empty glob set leaves the state unchanged. -/
theorem walktree_empty_pats (es : List DirEntry) (st : PState) (base : String) :
    walktree st base [] es = st := by
  induction es generalizing st with
  | nil => rfl
  | cons e rest ih =>
    show walktree (filefold st e base []) base [] rest = st
    rw [filefold_empty_pats, ih]

/-- C10: finalization is frame-preserving - update_average rewrites only the
average field, so count, total, max and min read after finalization are
exactly those read before it. -/
theorem c10_update_average_frame (e : ChildSizeEntry) :
    (update_average e).count = e.count ∧ (update_average e).total = e.total ∧
    (update_average e).max = e.max ∧ (update_average e).min = e.min :=
  ⟨rfl, rfl, rfl, rfl⟩

/-- C6: requesting the average of an accumulator into which zero files were
folded (count and total still zero) never fails: the f64 division yields NaN,
whose u64 cast is zero, so the average is defined as zero and the rest of the
state is untouched. -/
theorem c6_zero_count_average (e : ChildSizeEntry)
    (hc : e.count = 0) (ht : e.total = 0) :
    update_average e = { e with average := 0 } := by
  simp [update_average, f64AvgCast, hc, ht]

/-- Witness for C6 at the fresh default accumulator. -/
theorem c6_zero_count_average_witness :
    ChildSizeEntry.default.count = 0 ∧ ChildSizeEntry.default.total = 0 ∧
    update_average ChildSizeEntry.default =
      { ChildSizeEntry.default with average := 0 } :=
  ⟨rfl, rfl, c6_zero_count_average ChildSizeEntry.default rfl rfl⟩

/-- C4: a printed row carries only four numeric fields - count, total,
average and max - and the min field is absent from it: for the entry obtained
by folding sizes 3 and 10 the min value 3 appears nowhere in its row, though
the claim requires all five fields; the summary row does carry the fixed
SUMMARY label, again with only the four fields. -/
theorem c4_min_field_missing :
    displayFields (update_average (foldSizes [3, 10])) = [2, 13, 6, 10] ∧
    (update_average (foldSizes [3, 10])).min = 3 ∧
    (update_average (foldSizes [3, 10])).min ∉
      displayFields (update_average (foldSizes [3, 10])) ∧
    processRows SortMode.Count false true
        { summary := foldSizes [3, 10], entries := [("k", foldSizes [3, 10])] } =
      [([2, 13, 6, 10], "k"), ([2, 13, 6, 10], "SUMMARY")] := by decide

/-- C3: with an empty pattern list the run aggregates nothing at all - the
empty GlobSet matches no file name, so every file of every root is filtered
out and the final state is the initial one, while the claim expects every
regular file to be folded. -/
theorem c3_empty_patterns_fold_nothing (roots : List (String × List DirEntry)) :
    walktrees [] roots = Except.ok Processor.init := by
  unfold walktrees
  simp only [List.find?]
  congr 1
  induction roots with
  | nil => rfl
  | cons r rest ih =>
    show List.foldl _ (walktree Processor.init r.1 [] r.2) rest = Processor.init
    rw [walktree_empty_pats, ih]

/-- C7: an invalid glob pattern among the requested patterns makes the run
abort with the pattern error, for every filesystem alike, so the abort
happens before any traversal is consulted and before any output exists. -/
theorem c7_invalid_pattern_aborts (pats : List String) (p : String)
    (hp : p ∈ pats) (hbad : globParseOk p = false)
    (roots : List (String × List DirEntry)) :
    walktrees pats roots = Except.error "InvalidPattern" := by
  unfold walktrees
  cases hf : pats.find? (fun q => !globParseOk q) with
  | some q => rfl
  | none =>
    exfalso
    have h := List.find?_eq_none.mp hf p hp
    simp [hbad] at h

/-- Witness for C7: the unclosed class pattern aborts a concrete run. -/
theorem c7_invalid_pattern_aborts_witness :
    walktrees ["[", "*.txt"] [("base", [⟨"base/a.txt", true, some 10⟩])] =
      Except.error "InvalidPattern" :=
  c7_invalid_pattern_aborts ["[", "*.txt"] "[" (by decide) (by decide) _

/-- C2: key resolution follows the claimed case split - the key is missing
exactly when the root's components are not a leading segment of the file
path's components (and the caller then falls back to the empty string); a
stripped remainder with no parent or an empty parent keys to the root path
itself; any other remainder keys to the root path joined with the entire
relative parent, rendered as a path string. -/
theorem c2_key_contract (path base : String) :
    (((pathComps base).isPrefixOf (pathComps path) = false) ↔
      stripBaseOf (pathComps path) (pathComps base) = none) ∧
    (stripBaseOf (pathComps path) (pathComps base) = none →
      Processor.key path base = none ∧ keyOrDefault path base = "") ∧
    (∀ r, stripBaseOf (pathComps path) (pathComps base) = some r →
      (parentComps r = none ∨ parentComps r = some []) →
      Processor.key path base = some base) ∧
    (∀ r p, stripBaseOf (pathComps path) (pathComps base) = some r →
      parentComps r = some p → p ≠ [] →
      Processor.key path base = some (pushRender base p)) := by
  refine ⟨?_, ?_, ?_, ?_⟩
  · unfold stripBaseOf
    cases h : (pathComps base).isPrefixOf (pathComps path) <;> simp [h]
  · intro h
    unfold keyOrDefault Processor.key
    rw [h]
    exact ⟨rfl, rfl⟩
  · intro r hr hpar
    unfold Processor.key
    rw [hr]
    show (match parentComps r with
      | none => some base
      | some p => if p = [] then some base else some (pushRender base p)) = some base
    rcases hpar with h | h
    · rw [h]
    · rw [h]
      simp
  · intro r p hr hpar hne
    unfold Processor.key
    rw [hr]
    show (match parentComps r with
      | none => some base
      | some p => if p = [] then some base else some (pushRender base p)) =
      some (pushRender base p)
    rw [hpar]
    simp [hne]

/-- Witness for C2 on concrete paths: a deep file joins the whole relative
parent onto the root, a direct child keys to the root itself, and a path
outside the root yields no key with the empty-string fallback. -/
theorem c2_key_contract_witness :
    Processor.key "/test/1/2/5.txt" "/test/" = some (pushRender "/test/" ["1", "2"]) ∧
    Processor.key "/test/5.txt" "/test/" = some "/test/" ∧
    Processor.key "/x/5.txt" "/test/" = none ∧ keyOrDefault "/x/5.txt" "/test/" = "" := by
  have h1 := (c2_key_contract "/test/1/2/5.txt" "/test/").2.2.2
    ["1", "2", "5.txt"] ["1", "2"] (by decide) (by decide) (by decide)
  have h2 := (c2_key_contract "/test/5.txt" "/test/").2.2.1
    ["5.txt"] (by decide) (Or.inr (by decide))
  have h3 := (c2_key_contract "/x/5.txt" "/test/").2.1 (by decide)
  exact ⟨h1, h2, h3.1, h3.2⟩

/-- C8 counterexample: the same two-entry mapping presented in its two
iteration orders (each a permutation of the other) ties on the selected field
yet produces two different report orders, so entries tying on the selected
field are not ordered consistently across runs - the tie order follows the
HashMap's unspecified, per-run iteration order. -/
theorem c8_tie_order_counterexample :
    List.Perm [("a", ChildSizeEntry.default), ("b", ChildSizeEntry.default)]
      [("b", ChildSizeEntry.default), ("a", ChildSizeEntry.default)] ∧
    reportOrder SortMode.Count false
        [("a", ChildSizeEntry.default), ("b", ChildSizeEntry.default)] ≠
      reportOrder SortMode.Count false
        [("b", ChildSizeEntry.default), ("a", ChildSizeEntry.default)] := by
  constructor
  · exact List.Perm.swap _ _ _
  · decide

/-- C8 amended: the report is a permutation of the finalized entries, sorted
ascending on the field selected by the sort mode when the reverse flag is
off, and exactly that sorted sequence reversed when the flag is set; the tie
order between equal entries follows the order in which the mapping is
presented. -/
theorem c8_report_permutation_sorted (mode : SortMode) (rev : Bool)
    (l : List (String × ChildSizeEntry)) :
    List.Perm (reportOrder mode rev l) l ∧
    List.Sorted (fun x y => mode.field x.2 ≤ mode.field y.2)
      (reportOrder mode false l) ∧
    reportOrder mode true l = (reportOrder mode false l).reverse := by
  have hperm : List.Perm (sortEntries mode l) l := List.perm_insertionSort _ l
  refine ⟨?_, ?_, ?_⟩
  · unfold reportOrder
    cases rev
    · simpa using hperm
    · simpa using (List.reverse_perm (sortEntries mode l)).trans hperm
  · haveI ht : IsTotal (String × ChildSizeEntry)
        (fun x y => mode.field x.2 ≤ mode.field y.2) :=
      ⟨fun a b => Nat.le_total _ _⟩
    haveI htr : IsTrans (String × ChildSizeEntry)
        (fun x y => mode.field x.2 ≤ mode.field y.2) :=
      ⟨fun a b c hab hbc => Nat.le_trans hab hbc⟩
    simpa [reportOrder] using
      List.sorted_insertionSort (fun x y => mode.field x.2 ≤ mode.field y.2) l
  · simp [reportOrder]

/-- Count field after folding a size list onto an entry with in-range count. -/
theorem foldl_addAssign_count (sizes : List Nat) :
    ∀ e : ChildSizeEntry, e.count < U64 →
      (sizes.foldl addAssign e).count = (e.count + sizes.length) % U64 := by
  induction sizes with
  | nil =>
    intro e he
    simp [Nat.mod_eq_of_lt he]
  | cons s rest ih =>
    intro e he
    show (rest.foldl addAssign (addAssign e s)).count = _
    rw [ih (addAssign e s) (Nat.mod_lt _ (by decide))]
    show ((e.count + 1) % U64 + rest.length) % U64 = _
    rw [Nat.mod_add_mod]
    congr 1
    simp [List.length_cons]
    omega

/-- Total field after folding a size list onto an entry with in-range total. -/
theorem foldl_addAssign_total (sizes : List Nat) :
    ∀ e : ChildSizeEntry, e.total < U64 →
      (sizes.foldl addAssign e).total = (e.total + sizes.sum) % U64 := by
  induction sizes with
  | nil =>
    intro e he
    simp [Nat.mod_eq_of_lt he]
  | cons s rest ih =>
    intro e he
    show (rest.foldl addAssign (addAssign e s)).total = _
    rw [ih (addAssign e s) (Nat.mod_lt _ (by decide))]
    show ((e.total + s) % U64 + rest.sum) % U64 = _
    rw [Nat.mod_add_mod]
    congr 1
    simp [List.sum_cons]
    omega

/-- The max update of one fold is the binary maximum. -/
theorem addAssign_max (e : ChildSizeEntry) (s : Nat) :
    (addAssign e s).max = Nat.max e.max s := by
  show (if e.max < s then s else e.max) = _
  rcases Nat.lt_or_ge e.max s with h | h
  · simp [h, Nat.max_eq_right (Nat.le_of_lt h)]
  · simp [Nat.not_lt.mpr h, Nat.max_eq_left h]

/-- The min update of one fold is the binary minimum. -/
theorem addAssign_min (e : ChildSizeEntry) (s : Nat) :
    (addAssign e s).min = Nat.min e.min s := by
  show (if s < e.min then s else e.min) = _
  rcases Nat.lt_or_ge s e.min with h | h
  · simp [h, Nat.min_eq_right (Nat.le_of_lt h)]
  · simp [Nat.not_lt.mpr h, Nat.min_eq_left h]

/-- Max field after folding a size list onto an entry. -/
theorem foldl_addAssign_max (sizes : List Nat) :
    ∀ e : ChildSizeEntry, (sizes.foldl addAssign e).max = sizes.foldl Nat.max e.max := by
  induction sizes with
  | nil => intro e; rfl
  | cons s rest ih =>
    intro e
    show (rest.foldl addAssign (addAssign e s)).max = rest.foldl Nat.max (Nat.max e.max s)
    rw [ih, addAssign_max]

/-- Min field after folding a size list onto an entry. -/
theorem foldl_addAssign_min (sizes : List Nat) :
    ∀ e : ChildSizeEntry, (sizes.foldl addAssign e).min = sizes.foldl Nat.min e.min := by
  induction sizes with
  | nil => intro e; rfl
  | cons s rest ih =>
    intro e
    show (rest.foldl addAssign (addAssign e s)).min = rest.foldl Nat.min (Nat.min e.min s)
    rw [ih, addAssign_min]

/-- The seed never exceeds a maximum fold. -/
theorem le_foldl_max (l : List Nat) : ∀ a, a ≤ l.foldl Nat.max a := by
  induction l with
  | nil => intro a; exact Nat.le_refl a
  | cons x rest ih =>
    intro a
    exact Nat.le_trans (Nat.le_max_left a x) (ih (Nat.max a x))

/-- Every member is below the maximum fold. -/
theorem mem_le_foldl_max (l : List Nat) : ∀ a, ∀ x ∈ l, x ≤ l.foldl Nat.max a := by
  induction l with
  | nil => intro a x hx; cases hx
  | cons y rest ih =>
    intro a x hx
    rcases List.mem_cons.mp hx with rfl | hx2
    · exact Nat.le_trans (Nat.le_max_right a x) (le_foldl_max rest _)
    · exact ih _ x hx2

/-- An upper bound of the seed and the members bounds the maximum fold. -/
theorem foldl_max_le (l : List Nat) :
    ∀ a M, a ≤ M → (∀ x ∈ l, x ≤ M) → l.foldl Nat.max a ≤ M := by
  induction l with
  | nil => intro a M ha _; exact ha
  | cons y rest ih =>
    intro a M ha hall
    exact ih _ M (Nat.max_le.mpr ⟨ha, hall y (List.mem_cons_self y rest)⟩)
      (fun x hx => hall x (List.mem_cons_of_mem y hx))

/-- The minimum fold never exceeds the seed. -/
theorem foldl_min_le (l : List Nat) : ∀ a, l.foldl Nat.min a ≤ a := by
  induction l with
  | nil => intro a; exact Nat.le_refl a
  | cons x rest ih =>
    intro a
    exact Nat.le_trans (ih (Nat.min a x)) (Nat.min_le_left a x)

/-- The minimum fold is below every member. -/
theorem foldl_min_le_mem (l : List Nat) : ∀ a, ∀ x ∈ l, l.foldl Nat.min a ≤ x := by
  induction l with
  | nil => intro a x hx; cases hx
  | cons y rest ih =>
    intro a x hx
    rcases List.mem_cons.mp hx with rfl | hx2
    · exact Nat.le_trans (foldl_min_le rest _) (Nat.min_le_right a x)
    · exact ih _ x hx2

/-- A lower bound of the seed and the members bounds the minimum fold. -/
theorem le_foldl_min (l : List Nat) :
    ∀ a c, c ≤ a → (∀ x ∈ l, c ≤ x) → c ≤ l.foldl Nat.min a := by
  induction l with
  | nil => intro a c hc _; exact hc
  | cons y rest ih =>
    intro a c hc hall
    exact ih _ c (Nat.le_min.mpr ⟨hc, hall y (List.mem_cons_self y rest)⟩)
      (fun x hx => hall x (List.mem_cons_of_mem y hx))

/-- C1 counterexample: folding the single size 2 ^ 50 + 1 (a byte count just
above one pebibyte) leaves min at the sentinel instead of at the true
minimum of the folded sizes - the first folded size did not replace the
sentinel. -/
theorem c1_min_sentinel_counterexample :
    (foldSizes [2 ^ 50 + 1]).min = pib1 ∧ pib1 ≠ 2 ^ 50 + 1 := by decide

/-- C1 amended: over any non-empty fold sequence whose length and sum stay
below 2 ^ 64, count is the number of folds, total is the sum of the sizes and
max is the true maximum; min is the minimum of the sentinel and the true
minimum - hence the true minimum exactly when the smallest folded size is at
most one pebibyte - and the first folded size replaces the sentinel exactly
when it lies strictly below the sentinel. -/
theorem c1_fold_statistics (sizes : List Nat) (M m : Nat)
    (hlen : sizes.length < U64) (hsum : sizes.sum < U64)
    (hMmem : M ∈ sizes) (hMub : ∀ s ∈ sizes, s ≤ M)
    (hmmem : m ∈ sizes) (hmlb : ∀ s ∈ sizes, m ≤ s) :
    (foldSizes sizes).count = sizes.length ∧
    (foldSizes sizes).total = sizes.sum ∧
    (foldSizes sizes).max = M ∧
    (foldSizes sizes).min = Nat.min pib1 m ∧
    (m ≤ pib1 → (foldSizes sizes).min = m) ∧
    (∀ s : Nat, (addAssign ChildSizeEntry.default s).min =
      if s < pib1 then s else pib1) := by
  have hmin : (foldSizes sizes).min = Nat.min pib1 m := by
    rw [foldSizes, foldl_addAssign_min]
    show sizes.foldl Nat.min pib1 = _
    refine Nat.le_antisymm ?_ ?_
    · exact Nat.le_min.mpr ⟨foldl_min_le sizes pib1, foldl_min_le_mem sizes pib1 m hmmem⟩
    · exact le_foldl_min sizes pib1 (Nat.min pib1 m) (Nat.min_le_left _ _)
        (fun x hx => Nat.le_trans (Nat.min_le_right _ _) (hmlb x hx))
  refine ⟨?_, ?_, ?_, hmin, ?_, ?_⟩
  · rw [foldSizes, foldl_addAssign_count sizes ChildSizeEntry.default (by decide)]
    show (0 + sizes.length) % U64 = _
    rw [Nat.zero_add, Nat.mod_eq_of_lt hlen]
  · rw [foldSizes, foldl_addAssign_total sizes ChildSizeEntry.default (by decide)]
    show (0 + sizes.sum) % U64 = _
    rw [Nat.zero_add, Nat.mod_eq_of_lt hsum]
  · rw [foldSizes, foldl_addAssign_max]
    show sizes.foldl Nat.max 0 = M
    refine Nat.le_antisymm ?_ (mem_le_foldl_max sizes 0 M hMmem)
    exact foldl_max_le sizes 0 M (Nat.zero_le M) hMub
  · intro hle
    rw [hmin]
    exact Nat.min_eq_right hle
  · intro s
    rfl

/-- Witness for C1 amended at the concrete sizes 3 and 10. -/
theorem c1_fold_statistics_witness :
    (foldSizes [3, 10]).count = 2 ∧ (foldSizes [3, 10]).total = 13 ∧
    (foldSizes [3, 10]).max = 10 ∧ (foldSizes [3, 10]).min = 3 := by
  have h := c1_fold_statistics [3, 10] 10 3 (by decide) (by decide) (by decide)
    (by decide) (by decide) (by decide)
  exact ⟨h.1, h.2.1, h.2.2.1, h.2.2.2.2.1 (by decide)⟩

/-- Unfolding of sumCounts over a cons cell. -/
theorem sumCounts_cons (k : String) (e : ChildSizeEntry) (l : List (String × ChildSizeEntry)) :
    sumCounts ((k, e) :: l) = e.count + sumCounts l := by
  simp [sumCounts]

/-- Unfolding of sumTotals over a cons cell. -/
theorem sumTotals_cons (k : String) (e : ChildSizeEntry) (l : List (String × ChildSizeEntry)) :
    sumTotals ((k, e) :: l) = e.total + sumTotals l := by
  simp [sumTotals]

/-- The mapping update adds one to the summed counts, modulo 2 ^ 64. -/
theorem updateAssoc_sumCounts (l : List (String × ChildSizeEntry)) (k : String) (size : Nat) :
    sumCounts (updateAssoc l k size) % U64 = (sumCounts l + 1) % U64 := by
  induction l with
  | nil =>
    show sumCounts [(k, addAssign ChildSizeEntry.default size)] % U64 = _
    rw [sumCounts_cons]
    show ((0 + 1) % U64 + sumCounts ([] : List (String × ChildSizeEntry))) % U64 = _
    simp [sumCounts]
  | cons p rest ih =>
    rcases p with ⟨k2, e⟩
    show sumCounts (if k2 = k then (k2, addAssign e size) :: rest
      else (k2, e) :: updateAssoc rest k size) % U64 = _
    by_cases h : k2 = k
    · rw [if_pos h, sumCounts_cons, sumCounts_cons]
      show ((e.count + 1) % U64 + sumCounts rest) % U64 = _
      rw [Nat.mod_add_mod]
      congr 1
      omega

    · rw [if_neg h, sumCounts_cons, sumCounts_cons]
      calc (e.count + sumCounts (updateAssoc rest k size)) % U64
          = (e.count % U64 + sumCounts (updateAssoc rest k size) % U64) % U64 := by
            rw [← Nat.add_mod]
        _ = (e.count % U64 + (sumCounts rest + 1) % U64) % U64 := by rw [ih]
        _ = (e.count + (sumCounts rest + 1)) % U64 := by rw [← Nat.add_mod]
        _ = (e.count + sumCounts rest + 1) % U64 := by rw [Nat.add_assoc]

/-- The mapping update adds the folded size to the summed totals, modulo
2 ^ 64. -/
theorem updateAssoc_sumTotals (l : List (String × ChildSizeEntry)) (k : String) (size : Nat) :
    sumTotals (updateAssoc l k size) % U64 = (sumTotals l + size) % U64 := by
  induction l with
  | nil =>
    show sumTotals [(k, addAssign ChildSizeEntry.default size)] % U64 = _
    rw [sumTotals_cons]
    show ((0 + size) % U64 + sumTotals ([] : List (String × ChildSizeEntry))) % U64 = _
    simp [sumTotals]
  | cons p rest ih =>
    rcases p with ⟨k2, e⟩
    show sumTotals (if k2 = k then (k2, addAssign e size) :: rest
      else (k2, e) :: updateAssoc rest k size) % U64 = _
    by_cases h : k2 = k
    · rw [if_pos h, sumTotals_cons, sumTotals_cons]
      show ((e.total + size) % U64 + sumTotals rest) % U64 = _
      rw [Nat.mod_add_mod]
      congr 1
      omega
    · rw [if_neg h, sumTotals_cons, sumTotals_cons]
      calc (e.total + sumTotals (updateAssoc rest k size)) % U64
          = (e.total % U64 + sumTotals (updateAssoc rest k size) % U64) % U64 := by
            rw [← Nat.add_mod]
        _ = (e.total % U64 + (sumTotals rest + size) % U64) % U64 := by rw [ih]
        _ = (e.total + (sumTotals rest + size)) % U64 := by rw [← Nat.add_mod]
        _ = (e.total + sumTotals rest + size) % U64 := by rw [Nat.add_assoc]

/-- After the mapping update the entry under the key is the folded entry. -/
theorem lookupOrDefault_updateAssoc (l : List (String × ChildSizeEntry)) (k : String) (size : Nat) :
    lookupOrDefault (updateAssoc l k size) k = addAssign (lookupOrDefault l k) size := by
  induction l with
  | nil =>
    show lookupOrDefault [(k, addAssign ChildSizeEntry.default size)] k = _
    simp [lookupOrDefault]
  | cons p rest ih =>
    rcases p with ⟨k2, e⟩
    show lookupOrDefault (if k2 = k then (k2, addAssign e size) :: rest
      else (k2, e) :: updateAssoc rest k size) k = _
    by_cases h : k2 = k
    · subst h
      rw [if_pos rfl]
      show (if k2 = k2 then addAssign e size else lookupOrDefault rest k2) = _
      rw [if_pos rfl]
      show _ = addAssign (if k2 = k2 then e else lookupOrDefault rest k2) size
      rw [if_pos rfl]
    · rw [if_neg h]
      show (if k2 = k then e else lookupOrDefault (updateAssoc rest k size) k) = _
      rw [if_neg h]
      show _ = addAssign (if k2 = k then e else lookupOrDefault rest k) size
      rw [if_neg h]
      exact ih

/-- Invariant of record folding: the summary's count and total track the
summed per-key counts and totals modulo 2 ^ 64. -/
theorem foldl_record_sums (rs : List (String × Nat)) :
    ∀ st : PState, st.summary.count = sumCounts st.entries % U64 →
      st.summary.total = sumTotals st.entries % U64 →
      (rs.foldl (fun st r => record st r.1 r.2) st).summary.count =
        sumCounts (rs.foldl (fun st r => record st r.1 r.2) st).entries % U64 ∧
      (rs.foldl (fun st r => record st r.1 r.2) st).summary.total =
        sumTotals (rs.foldl (fun st r => record st r.1 r.2) st).entries % U64 := by
  induction rs with
  | nil => intro st h1 h2; exact ⟨h1, h2⟩
  | cons r rest ih =>
    intro st h1 h2
    refine ih (record st r.1 r.2) ?_ ?_
    · show (st.summary.count + 1) % U64 =
        sumCounts (updateAssoc st.entries r.1 r.2) % U64
      rw [updateAssoc_sumCounts, h1, Nat.mod_add_mod]
    · show (st.summary.total + r.2) % U64 =
        sumTotals (updateAssoc st.entries r.1 r.2) % U64
      rw [updateAssoc_sumTotals, h2, Nat.mod_add_mod]

/-- C9: recording a qualifying file folds its size both into the summary and
into the entry looked up or created for its key, and filefold on a regular,
glob-matched file with known size performs exactly such a record;
consequently, after any sequence of records the summary's count and total
equal the sums of the per-key counts and totals modulo 2 ^ 64, hence exactly
whenever those sums are representable in 64 bits. -/
theorem c9_record_both_accumulators (rs : List (String × Nat)) :
    (∀ st k size, (record st k size).summary = addAssign st.summary size ∧
      lookupOrDefault (record st k size).entries k =
        addAssign (lookupOrDefault st.entries k) size) ∧
    (∀ st e base pats n, e.isFile = true →
      globSetIsMatch pats (fileNameOf e.path) = true → e.size = some n →
      filefold st e base pats = record st (keyOrDefault e.path base) (n % U64)) ∧
    (foldRecords rs).summary.count = sumCounts (foldRecords rs).entries % U64 ∧
    (foldRecords rs).summary.total = sumTotals (foldRecords rs).entries % U64 ∧
    (sumCounts (foldRecords rs).entries < U64 →
      (foldRecords rs).summary.count = sumCounts (foldRecords rs).entries) ∧
    (sumTotals (foldRecords rs).entries < U64 →
      (foldRecords rs).summary.total = sumTotals (foldRecords rs).entries) := by
  have hmain : (foldRecords rs).summary.count = sumCounts (foldRecords rs).entries % U64 ∧
      (foldRecords rs).summary.total = sumTotals (foldRecords rs).entries % U64 :=
    foldl_record_sums rs Processor.init (by decide) (by decide)
  refine ⟨?_, ?_, hmain.1, hmain.2, ?_, ?_⟩
  · intro st k size
    exact ⟨rfl, lookupOrDefault_updateAssoc st.entries k size⟩
  · intro st e base pats n hf hm hs
    unfold filefold
    rw [hf, hm, hs]
    simp
  · intro h
    rw [hmain.1, Nat.mod_eq_of_lt h]
  · intro h
    rw [hmain.2, Nat.mod_eq_of_lt h]

/-- Witness for C9: a concrete record sequence whose sums are exact, and one
concrete qualifying filefold performing the record. -/
theorem c9_record_both_accumulators_witness :
    (foldRecords [("a", 10), ("b", 20), ("a", 5)]).summary.count =
      sumCounts (foldRecords [("a", 10), ("b", 20), ("a", 5)]).entries ∧
    (foldRecords [("a", 10), ("b", 20), ("a", 5)]).summary.total =
      sumTotals (foldRecords [("a", 10), ("b", 20), ("a", 5)]).entries ∧
    filefold Processor.init ⟨"/r/a.txt", true, some 10⟩ "/r" ["*"] =
      record Processor.init (keyOrDefault "/r/a.txt" "/r") (10 % U64) :=
  ⟨(c9_record_both_accumulators [("a", 10), ("b", 20), ("a", 5)]).2.2.2.2.1 (by decide),
   (c9_record_both_accumulators [("a", 10), ("b", 20), ("a", 5)]).2.2.2.2.2 (by decide),
   (c9_record_both_accumulators []).2.1 Processor.init ⟨"/r/a.txt", true, some 10⟩
     "/r" ["*"] 10 rfl (by decide) rfl⟩

/-- Specification of the fuel-bounded logarithm: inside its fuel range it is
the floor of the base-two logarithm. -/
theorem log2f_spec (fuel : Nat) :
    ∀ n : Nat, 1 ≤ n → n < 2 ^ fuel →
      2 ^ log2f fuel n ≤ n ∧ n < 2 ^ (log2f fuel n + 1) := by
  induction fuel with
  | zero =>
    intro n h1 h2
    simp at h2
    omega
  | succ f ih =>
    intro n h1 h2
    by_cases h : 2 ≤ n
    · have hdiv : n / 2 < 2 ^ f := by
        have hpow : 2 ^ (f + 1) = 2 * 2 ^ f := by ring
        omega
      obtain ⟨hl, hr⟩ := ih (n / 2) (by omega) hdiv
      simp only [log2f, if_pos h]
      constructor
      · have hp : 2 ^ (log2f f (n / 2) + 1) = 2 * 2 ^ log2f f (n / 2) := by ring
        omega
      · have hp : 2 ^ (log2f f (n / 2) + 1 + 1) = 2 * 2 ^ (log2f f (n / 2) + 1) := by
          ring
        omega
    · simp only [log2f, if_neg h]
      constructor
      · simpa using h1
      · have h2' : n < 2 := by omega
        simpa using h2'

/-- Naturals up to 2 ^ 53 are exact doubles. -/
theorem natToF64_id (n : Nat) (h : n ≤ 2 ^ 53) : natToF64 n = n := by
  rcases Nat.lt_or_ge n (2 ^ 53) with h2 | h2
  · unfold natToF64
    rw [if_pos h2]
  · have he : n = 2 ^ 53 := Nat.le_antisymm h h2
    subst he
    decide

/-- Truncated correctly rounded division agrees with integer division when
the dividend is at most 2 ^ 53 and the divisor is a positive u64: the
rounded quotient never crosses an integer step, because a crossing would
force the dividend beyond 2 ^ 53. -/
theorem f64DivTrunc_eq_div (a b : Nat) (hb1 : 1 ≤ b) (hbu : b < U64)
    (ha : a ≤ 2 ^ 53) : f64DivTrunc a b = a / b := by
  rcases Nat.eq_zero_or_pos a with rfl | ha1
  · simp [f64DivTrunc]
  have ha0 : ¬ a = 0 := by omega
  have hb0 : 0 < b := hb1
  have hcge : 2 ^ 100 ≤ a * 2 ^ 100 := by
    calc (2:Nat) ^ 100 = 1 * 2 ^ 100 := (Nat.one_mul _).symm
      _ ≤ a * 2 ^ 100 := Nat.mul_le_mul_right _ ha1
  have hcle : a * 2 ^ 100 ≤ 2 ^ 153 := by
    calc a * 2 ^ 100 ≤ 2 ^ 53 * 2 ^ 100 := Nat.mul_le_mul_right _ ha
      _ = 2 ^ 153 := by decide
  have hble : b ≤ 2 ^ 100 := by
    have h64 : U64 ≤ 2 ^ 100 := by decide
    omega
  have hn1 : 1 ≤ a * 2 ^ 100 / b := (Nat.one_le_div_iff hb0).mpr (by omega)
  have hnU : a * 2 ^ 100 / b < 2 ^ 200 := by
    have hd : a * 2 ^ 100 / b ≤ a * 2 ^ 100 := Nat.div_le_self _ _
    have hp : (2:Nat) ^ 153 < 2 ^ 200 := by decide
    omega
  obtain ⟨hKl0, hKu0⟩ := log2f_spec 200 (a * 2 ^ 100 / b) hn1 hnU
  have hKl : 2 ^ log2f 200 (a * 2 ^ 100 / b) * b ≤ a * 2 ^ 100 :=
    (Nat.le_div_iff_mul_le hb0).mp hKl0
  by_cases hbr : log2f 200 (a * 2 ^ 100 / b) ≤ 152
  · have hres : f64DivTrunc a b =
        rhe (a * 2 ^ (152 - log2f 200 (a * 2 ^ 100 / b))) b /
          2 ^ (152 - log2f 200 (a * 2 ^ 100 / b)) := by
      unfold f64DivTrunc
      rw [if_neg ha0]
      show (if log2f 200 (a * 2 ^ 100 / b) ≤ 152 then
          rhe (a * 2 ^ (152 - log2f 200 (a * 2 ^ 100 / b))) b /
            2 ^ (152 - log2f 200 (a * 2 ^ 100 / b))
        else rhe a (b * 2 ^ (log2f 200 (a * 2 ^ 100 / b) - 152)) *
            2 ^ (log2f 200 (a * 2 ^ 100 / b) - 152)) = _
      rw [if_pos hbr]
    rw [hres]
    revert hKl hbr
    generalize log2f 200 (a * 2 ^ 100 / b) = K
    intro hKl hbr
    have hbr2 : K + (152 - K) = 152 := by omega
    revert hbr2
    generalize 152 - K = s
    intro hKs152
    have hKs : 2 ^ K * 2 ^ s = 2 ^ 152 := by
      rw [← pow_add, hKs152]
    have h2s1 : 1 ≤ 2 ^ s := Nat.one_le_two_pow
    have hqr : b * (a / b) + a % b = a := Nat.div_add_mod a b
    have hrb : a % b < b := Nat.mod_lt a hb0
    have hx : a * 2 ^ s = a % b * 2 ^ s + b * (a / b * 2 ^ s) := by
      calc a * 2 ^ s = (b * (a / b) + a % b) * 2 ^ s := by rw [hqr]
        _ = a % b * 2 ^ s + b * (a / b * 2 ^ s) := by ring
    have hxdiv : a * 2 ^ s / b = a % b * 2 ^ s / b + a / b * 2 ^ s := by
      rw [hx, Nat.add_mul_div_left _ _ hb0]
    have hxmod : a * 2 ^ s % b = a % b * 2 ^ s % b := by
      rw [hx, Nat.add_mul_mod_self_left]
    have hu : a % b * 2 ^ s / b < 2 ^ s := by
      rw [Nat.div_lt_iff_lt_mul hb0]
      calc a % b * 2 ^ s < b * 2 ^ s := by
            exact mul_lt_mul_of_pos_right hrb (by positivity)
        _ = 2 ^ s * b := Nat.mul_comm _ _
    simp only [rhe]
    by_cases hδ : 2 * (a * 2 ^ s % b) > b ∨
        (2 * (a * 2 ^ s % b) = b ∧ a * 2 ^ s / b % 2 = 1)
    · rw [if_pos hδ]
      have h2w : b ≤ 2 * (a % b * 2 ^ s % b) := by
        rw [hxmod] at hδ
        rcases hδ with h | h
        · omega
        · omega
      have hune : a % b * 2 ^ s / b ≠ 2 ^ s - 1 := by
        intro hbad
        have hdm := Nat.div_add_mod (a % b * 2 ^ s) b
        rw [hbad] at hdm
        have hA2 : b * (2 ^ s - 1) + b = b * 2 ^ s := by
          calc b * (2 ^ s - 1) + b = b * (2 ^ s - 1 + 1) := by ring
            _ = b * 2 ^ s := by rw [Nat.sub_add_cancel h2s1]
        have hA3 : a % b * 2 ^ s + 2 ^ s ≤ b * 2 ^ s := by
          have h1 : (a % b + 1) * 2 ^ s ≤ b * 2 ^ s :=
            Nat.mul_le_mul_right _ (by omega)
          calc a % b * 2 ^ s + 2 ^ s = (a % b + 1) * 2 ^ s := by ring
            _ ≤ b * 2 ^ s := h1
        have hbP : 2 * 2 ^ s ≤ b := by omega
        have h153 : (2:Nat) ^ 153 ≤ 2 ^ K * b := by
          calc (2:Nat) ^ 153 = 2 ^ 152 * 2 := by decide
            _ = 2 ^ K * 2 ^ s * 2 := by rw [hKs]
            _ = 2 ^ K * (2 * 2 ^ s) := by ring
            _ ≤ 2 ^ K * b := Nat.mul_le_mul_left _ hbP
        have he2 : a * 2 ^ 100 = 2 ^ 153 := by omega
        have he1 : 2 ^ K * b = 2 ^ 153 := by omega
        have haeq : a = 2 ^ 53 := by
          have h1 : a * 2 ^ 100 = 2 ^ 53 * 2 ^ 100 := by
            rw [he2]
            decide
          exact Nat.eq_of_mul_eq_mul_right (by positivity) h1
        have hbeq : b = 2 * 2 ^ s := by
          have h1 : 2 ^ K * b = 2 ^ K * (2 * 2 ^ s) := by
            rw [he1]
            calc (2:Nat) ^ 153 = 2 ^ 152 * 2 := by decide
              _ = 2 ^ K * 2 ^ s * 2 := by rw [hKs]
              _ = 2 ^ K * (2 * 2 ^ s) := by ring
          exact Nat.eq_of_mul_eq_mul_left (by positivity) h1
        subst haeq
        subst hbeq
        have hb2 : 2 * 2 ^ s = 2 ^ (s + 1) := by ring
        rcases Nat.lt_or_ge 53 (s + 1) with hslt | hsle
        · have hlt : 2 ^ 53 < 2 * 2 ^ s := by
            rw [hb2]
            exact Nat.pow_lt_pow_right (by omega) hslt
          have hra : 2 ^ 53 % (2 * 2 ^ s) = 2 ^ 53 := Nat.mod_eq_of_lt hlt
          rw [hra, hb2, ← pow_add, Nat.pow_div (by omega) (by omega)] at hbad
          have h52 : 53 + s - (s + 1) = 52 := by omega
          rw [h52] at hbad
          have hs53 : 53 ≤ s := by omega
          have hp : (2:Nat) ^ 53 ≤ 2 ^ s := Nat.pow_le_pow_right (by omega) hs53
          have hq : (2:Nat) ^ 53 = 2 * 2 ^ 52 := by decide
          omega
        · have hdvd : 2 * 2 ^ s ∣ 2 ^ 53 := by
            rw [hb2]
            exact pow_dvd_pow 2 hsle
          have hr0 : 2 ^ 53 % (2 * 2 ^ s) = 0 := Nat.mod_eq_zero_of_dvd hdvd
          rw [hr0] at h2w
          simp at h2w
      rw [hxdiv]
      have hu1 : a % b * 2 ^ s / b + 1 < 2 ^ s := by omega
      have hshape : a % b * 2 ^ s / b + a / b * 2 ^ s + 1 =
          a % b * 2 ^ s / b + 1 + 2 ^ s * (a / b) := by ring
      rw [hshape, Nat.add_mul_div_left _ _ (by positivity : 0 < 2 ^ s),
        Nat.div_eq_of_lt hu1, Nat.zero_add]
    · rw [if_neg hδ, hxdiv]
      have hcomm : a % b * 2 ^ s / b + a / b * 2 ^ s =
          a % b * 2 ^ s / b + 2 ^ s * (a / b) := by ring
      rw [hcomm, Nat.add_mul_div_left _ _ (by positivity : 0 < 2 ^ s),
        Nat.div_eq_of_lt hu, Nat.zero_add]
  · have hKle : log2f 200 (a * 2 ^ 100 / b) ≤ 153 := by
      by_contra hgt
      push_neg at hgt
      have h2 : (2:Nat) ^ 154 ≤ 2 ^ log2f 200 (a * 2 ^ 100 / b) :=
        Nat.pow_le_pow_right (by omega) (by omega)
      have h3 : 2 ^ log2f 200 (a * 2 ^ 100 / b) * b ≤ 2 ^ 153 := le_trans hKl hcle
      have h4 : (2:Nat) ^ 154 * 1 ≤ 2 ^ log2f 200 (a * 2 ^ 100 / b) * b :=
        Nat.mul_le_mul h2 hb1
      have h5 : (2:Nat) ^ 153 < 2 ^ 154 := by decide
      omega
    have hK153 : log2f 200 (a * 2 ^ 100 / b) = 153 := by omega
    rw [hK153] at hKl
    have hble1 : b ≤ 1 := by
      have h1 : (2:Nat) ^ 153 * b ≤ 2 ^ 153 * 1 := by
        rw [Nat.mul_one]
        exact le_trans hKl hcle
      exact Nat.le_of_mul_le_mul_left h1 (by positivity)
    have hbeq : b = 1 := by omega
    subst hbeq
    have haeq : a = 2 ^ 53 := by
      have h1 : 2 ^ 53 * 2 ^ 100 ≤ a * 2 ^ 100 := by
        have h2 : (2:Nat) ^ 53 * 2 ^ 100 = 2 ^ 153 * 1 := by decide
        rw [h2]
        exact hKl
      have h3 : 2 ^ 53 ≤ a := Nat.le_of_mul_le_mul_right h1 (by positivity)
      omega
    subst haeq
    decide

/-- C5 counterexample: folding the single size 2 ^ 53 + 1 yields an
accumulator with positive count whose finalized average is 2 ^ 53, one less
than the integer quotient of total by count, because the total is rounded to
the nearest double before dividing. -/
theorem c5_float_average_counterexample :
    0 < (foldSizes [2 ^ 53 + 1]).count ∧
    (update_average (foldSizes [2 ^ 53 + 1])).average = 2 ^ 53 ∧
    (foldSizes [2 ^ 53 + 1]).total / (foldSizes [2 ^ 53 + 1]).count = 2 ^ 53 + 1 ∧
    (update_average (foldSizes [2 ^ 53 + 1])).average ≠
      (foldSizes [2 ^ 53 + 1]).total / (foldSizes [2 ^ 53 + 1]).count := by decide

/-- C5 amended: for every accumulator with positive count whose total and
count do not exceed 2 ^ 53 - so that both are exact doubles - the finalized
average equals the integer quotient of the 64-bit total by the 64-bit
count. -/
theorem c5_average_integer_quotient (e : ChildSizeEntry) (hc : 0 < e.count)
    (hc53 : e.count ≤ 2 ^ 53) (ht53 : e.total ≤ 2 ^ 53) :
    (update_average e).average = e.total / e.count := by
  show f64AvgCast e.total e.count = _
  unfold f64AvgCast
  have hcu : e.count < U64 := by
    have h53 : (2:Nat) ^ 53 < U64 := by decide
    omega
  rw [if_neg (by omega : ¬ e.count = 0), natToF64_id _ ht53, natToF64_id _ hc53,
    f64DivTrunc_eq_div _ _ hc hcu ht53]
  have hle : e.total / e.count ≤ U64 - 1 := by
    have h1 : e.total / e.count ≤ e.total := Nat.div_le_self _ _
    have h2 : (2:Nat) ^ 53 ≤ U64 - 1 := by decide
    omega
  exact Nat.min_eq_left hle

/-- Witness for C5 amended at the accumulator folded from sizes 3 and 10. -/
theorem c5_average_integer_quotient_witness :
    (update_average (foldSizes [3, 10])).average =
      (foldSizes [3, 10]).total / (foldSizes [3, 10]).count :=
  c5_average_integer_quotient (foldSizes [3, 10]) (by decide) (by decide) (by decide)

example : Processor.key "/test/1/2/3/4/5.txt" "/test/" = some "/test/1/2/3/4" := by decide

example : Processor.key "/test/1/5.txt" "/test/" = some "/test/1" := by decide

example : Processor.key "/test/5.txt" "/test/" = some "/test/" := by decide

example : Processor.key "/test/1/5.txt" "/test2/" = none := by decide

example : globParseOk "*.txt" = true := by decide

example : globParseOk "[" = false := by decide

example : globParseOk "\x7ba,b" = false := by decide

example : globMatch "*.txt" "hello.txt" = true := by decide

example : globMatch "*.txt" "hello.log" = false := by decide

example : globSetIsMatch [] "hello.txt" = false := by decide

example : foldSizes [3, 10] =
    { count := 2, total := 13, average := 0, max := 10, min := 3 } := by decide

example : f64AvgCast 13 2 = 6 := by decide

example : f64AvgCast 0 0 = 0 := by decide

example : f64AvgCast (2 ^ 53 + 1) 1 = 2 ^ 53 := by decide

example : (foldSizes [2 ^ 50 + 1]).min = pib1 := by decide
